import Mathlib

/-!
Shallow embedding of the quant-backtest repository core: the backtest
execution engine (src/core/engine.py), the signal ensemble, the
moving-average cross strategy (src/strategies/ma_cross.py) and the RSI
indicator (src/utils/indicators.py).

Prices, cash and share quantities are embedded as rationals; the metric
computations that involve square roots and real exponents are embedded
over the reals.  A pandas NaN is embedded as `none` of an `Option` type,
and pandas comparisons against NaN (which are False) as option
comparisons that are false whenever either side is `none`.
-/

namespace QuantBacktest

/-- Side of a trade record: the string stored under the "type" key of a
trade dict in BacktestEngine._execute_backtest. -/
inductive TradeType where
  | buy
  | sell
  deriving DecidableEq, Repr

/-- A trade record: the dict appended to the trades list in
BacktestEngine._execute_backtest.  The date key is dropped (dates are
abstracted away); the cash field is the balance right after the trade
settles, exactly as the source records it. -/
structure Trade where
  side : TradeType
  price : ℚ
  shares : ℚ
  commission : ℚ
  cash : ℚ
  deriving DecidableEq, Repr

/-- A portfolio snapshot: the dict appended to portfolio_value once per
bar in BacktestEngine._execute_backtest.  The date key is replaced by
the bar's close price, which identifies the bar for specification
purposes. -/
structure Snapshot where
  close : ℚ
  cash : ℚ
  position : ℚ
  positionValue : ℚ
  totalValue : ℚ
  deriving DecidableEq, Repr

/-- The mutable state threaded through the bar loop of
BacktestEngine._execute_backtest: cash, position, the trade log and the
snapshot list. -/
structure EngineState where
  cash : ℚ
  position : ℚ
  trades : List Trade
  portfolio : List Snapshot
  deriving Repr

/-- One iteration of the bar loop in BacktestEngine._execute_backtest
(engine.py lines 109-166): a conditional buy (signal 1, flat position,
positive cash), else a conditional sell (signal -1, positive position),
then an unconditional snapshot of the post-trade state. -/
def execStep (commission : ℚ) (st : EngineState) (bar : ℚ × ℤ) : EngineState :=
  let close := bar.1
  let signal := bar.2
  let st1 :=
    if signal = 1 ∧ st.position = 0 ∧ 0 < st.cash then
      let maxShares := st.cash / (close * (1 + commission))
      let commissionFee := maxShares * close * commission
      let cost := maxShares * close
      { st with
        position := maxShares
        cash := st.cash - (cost + commissionFee)
        trades := st.trades ++
          [{ side := .buy, price := close, shares := maxShares,
             commission := commissionFee,
             cash := st.cash - (cost + commissionFee) }] }
    else if signal = -1 ∧ 0 < st.position then
      let sellAmount := st.position * close
      let commissionFee := sellAmount * commission
      { st with
        cash := st.cash + (sellAmount - commissionFee)
        trades := st.trades ++
          [{ side := .sell, price := close, shares := st.position,
             commission := commissionFee,
             cash := st.cash + (sellAmount - commissionFee) }]
        position := 0 }
    else st
  { st1 with
    portfolio := st1.portfolio ++
      [{ close := close, cash := st1.cash, position := st1.position,
         positionValue := st1.position * close,
         totalValue := st1.cash + st1.position * close }] }

/-- The whole bar loop of BacktestEngine._execute_backtest: fold the
per-bar step over the (close, signal) pairs, starting from the initial
capital and a flat position. -/
def execBacktest (commission initialCapital : ℚ) (bars : List (ℚ × ℤ)) :
    EngineState :=
  bars.foldl (execStep commission)
    { cash := initialCapital, position := 0, trades := [], portfolio := [] }

/-- C1: on a bar whose ensemble signal is Buy with position exactly 0 and
strictly positive cash, the engine buys quantity
cash / (close * (1 + commission)), debits cash by quantity * close plus
the commission quantity * close * commission, sets the position to that
quantity and appends exactly one Buy trade; on any other Buy-signal bar
the trade log is unchanged.  The hypothesis close * (1 + commission) ≠ 0
is the condition under which the source's quantity formula denotes a
finite value (otherwise the float division yields infinity). -/
theorem buy_branch_exec (commission : ℚ) (st : EngineState) (close : ℚ)
    (hden : close * (1 + commission) ≠ 0) :
    (st.position = 0 → 0 < st.cash →
      (execStep commission st (close, 1)).position =
          st.cash / (close * (1 + commission)) ∧
      (execStep commission st (close, 1)).cash =
          st.cash - (st.cash / (close * (1 + commission)) * close +
            st.cash / (close * (1 + commission)) * close * commission) ∧
      (execStep commission st (close, 1)).trades = st.trades ++
        [{ side := .buy, price := close,
           shares := st.cash / (close * (1 + commission)),
           commission := st.cash / (close * (1 + commission)) * close * commission,
           cash := st.cash - (st.cash / (close * (1 + commission)) * close +
             st.cash / (close * (1 + commission)) * close * commission) }]) ∧
    (¬(st.position = 0 ∧ 0 < st.cash) →
      (execStep commission st (close, 1)).trades = st.trades) := by
  refine ⟨fun hpos hcash => ?_, fun h => ?_⟩
  · simp [execStep, hpos, hcash]
  · have h1 : ¬((1 : ℤ) = 1 ∧ st.position = 0 ∧ 0 < st.cash) := by
      intro hc
      exact h ⟨hc.2.1, hc.2.2⟩
    simp only [execStep, h1, if_false]
    have h2 : ¬((1 : ℤ) = -1 ∧ 0 < st.position) := by
      intro hc
      exact absurd hc.1 (by decide)
    simp [h2, h]

/-- Witness for C1 at commission 0.0003, initial cash 100000, close 50. -/
theorem buy_branch_exec_witness :
    (execStep (3/10000) { cash := 100000, position := 0, trades := [], portfolio := [] }
        (50, 1)).position = 100000 / (50 * (1 + 3/10000)) := by
  have h := buy_branch_exec (3/10000)
    { cash := 100000, position := 0, trades := [], portfolio := [] } 50 (by norm_num)
  exact (h.1 rfl (by norm_num)).1

/-- A trade log alternates Buy, Sell, Buy, Sell, … starting with Buy:
the entry at every even index is a Buy and at every odd index a Sell. -/
def Alternates (l : List Trade) : Prop :=
  ∀ i (h : i < l.length),
    (l.get ⟨i, h⟩).side = if i % 2 = 0 then TradeType.buy else TradeType.sell

/-- Appending one trade of the parity-appropriate side preserves
alternation. -/
theorem Alternates.push (l : List Trade) (t : Trade) (hl : Alternates l)
    (ht : t.side = if l.length % 2 = 0 then TradeType.buy else TradeType.sell) :
    Alternates (l ++ [t]) := by
  intro i h
  rcases Nat.lt_or_ge i l.length with hi | hi
  · simpa [List.get_eq_getElem, List.getElem_append_left hi] using hl i hi
  · have hlen : i < l.length + 1 := by simpa using h
    have hieq : i = l.length := Nat.le_antisymm (Nat.lt_succ_iff.mp hlen) hi
    subst hieq
    simpa [List.get_eq_getElem, List.getElem_append_right (Nat.le_refl l.length)]
      using ht

/-- Invariant tying the trade log's parity to the position: the log
alternates, a flat position means an even number of trades (next trade
would be a Buy) and a non-flat position an odd number (next would be a
Sell). -/
def TradeInv (st : EngineState) : Prop :=
  Alternates st.trades ∧
  (st.position = 0 → st.trades.length % 2 = 0) ∧
  (st.position ≠ 0 → st.trades.length % 2 = 1)

/-- One engine step preserves the trade-parity invariant, provided the
bar's close is positive and 1 + commission is nonzero (the condition
under which the buy quantity is a nonzero finite number). -/
theorem execStep_tradeInv (commission : ℚ) (st : EngineState) (bar : ℚ × ℤ)
    (hc : 1 + commission ≠ 0) (hclose : 0 < bar.1) (hst : TradeInv st) :
    TradeInv (execStep commission st bar) := by
  obtain ⟨halt, heven, hodd⟩ := hst
  by_cases hb : bar.2 = 1 ∧ st.position = 0 ∧ 0 < st.cash
  · obtain ⟨h1, h2, h3⟩ := hb
    have hlen : st.trades.length % 2 = 0 := heven h2
    have hq : st.cash / (bar.1 * (1 + commission)) ≠ 0 :=
      div_ne_zero (ne_of_gt h3) (mul_ne_zero (ne_of_gt hclose) hc)
    have ht : (execStep commission st bar).trades = st.trades ++
        [{ side := .buy, price := bar.1,
           shares := st.cash / (bar.1 * (1 + commission)),
           commission := st.cash / (bar.1 * (1 + commission)) * bar.1 * commission,
           cash := st.cash - (st.cash / (bar.1 * (1 + commission)) * bar.1 +
             st.cash / (bar.1 * (1 + commission)) * bar.1 * commission) }] := by
      simp [execStep, h1, h2, h3]
    refine ⟨?_, ?_, ?_⟩
    · rw [ht]
      exact Alternates.push _ _ halt (by simp [hlen])
    · intro hpos0
      exfalso
      apply hq
      simpa [execStep, h1, h2, h3] using hpos0
    · intro _
      rw [ht]
      simp [Nat.add_mod, hlen]
  · by_cases hs : bar.2 = -1 ∧ 0 < st.position
    · obtain ⟨h1, h2⟩ := hs
      have hne : st.position ≠ 0 := ne_of_gt h2
      have hlen : st.trades.length % 2 = 1 := hodd hne
      have ht : (execStep commission st bar).trades = st.trades ++
          [{ side := .sell, price := bar.1, shares := st.position,
             commission := st.position * bar.1 * commission,
             cash := st.cash + (st.position * bar.1 -
               st.position * bar.1 * commission) }] := by
        simp [execStep, hb, h1, h2]
      refine ⟨?_, ?_, ?_⟩
      · rw [ht]
        exact Alternates.push _ _ halt (by simp [hlen])
      · intro _
        rw [ht]
        simp [Nat.add_mod, hlen]
      · intro hpos
        exfalso
        apply hpos
        simp [execStep, hb, h1, h2]
    · refine ⟨?_, ?_, ?_⟩ <;>
        simp only [execStep, if_neg hb, if_neg hs] <;>
        [exact halt; exact heven; exact hodd]

/-- Folding engine steps over bars with positive closes preserves the
trade-parity invariant. -/
theorem foldl_tradeInv (commission : ℚ) (hc : 1 + commission ≠ 0) :
    ∀ (bars : List (ℚ × ℤ)) (st : EngineState), (∀ b ∈ bars, 0 < b.1) →
      TradeInv st → TradeInv (bars.foldl (execStep commission) st) := by
  intro bars
  induction bars with
  | nil => intro st _ hst; simpa using hst
  | cons b bs ih =>
    intro st hpos hst
    simp only [List.foldl_cons]
    exact ih _ (fun x hx => hpos x (List.mem_cons_of_mem b hx))
      (execStep_tradeInv commission st b hc (hpos b (List.mem_cons_self b bs)) hst)

/-- C2: in every completed run over a price series with strictly
positive closes, the trade log strictly alternates Buy, Sell, Buy,
Sell, … starting with Buy.  The hypothesis 1 + commission ≠ 0 expresses
that every executed buy divides by a nonzero denominator, i.e. that the
run completes with finite quantities. -/
theorem trades_alternate (commission initialCapital : ℚ) (bars : List (ℚ × ℤ))
    (hc : 1 + commission ≠ 0) (hpos : ∀ b ∈ bars, 0 < b.1) :
    Alternates (execBacktest commission initialCapital bars).trades := by
  have h := foldl_tradeInv commission hc bars
    { cash := initialCapital, position := 0, trades := [], portfolio := [] }
    hpos ⟨fun i h => absurd h (by simp), fun _ => rfl, fun h => absurd rfl h⟩
  exact h.1

/-- Witness for C2: a two-bar run (buy at close 10, sell at close 20)
with the default commission 0.0003 and capital 100000 alternates. -/
theorem trades_alternate_witness :
    Alternates (execBacktest (3/10000) 100000 [(10, 1), (20, -1)]).trades := by
  refine trades_alternate (3/10000) 100000 [(10, 1), (20, -1)] (by norm_num) ?_
  intro b hb
  simp only [List.mem_cons, List.not_mem_nil, or_false] at hb
  rcases hb with rfl | rfl <;> norm_num

/-- Every engine step appends exactly one snapshot, recording the bar's
close and the post-trade cash and position, with positionValue and
totalValue computed from them exactly as engine.py lines 158-166 do. -/
theorem execStep_portfolio_snoc (commission : ℚ) (st : EngineState) (bar : ℚ × ℤ) :
    (execStep commission st bar).portfolio = st.portfolio ++
      [{ close := bar.1, cash := (execStep commission st bar).cash,
         position := (execStep commission st bar).position,
         positionValue := (execStep commission st bar).position * bar.1,
         totalValue := (execStep commission st bar).cash +
           (execStep commission st bar).position * bar.1 }] := by
  by_cases hb : bar.2 = 1 ∧ st.position = 0 ∧ 0 < st.cash
  · obtain ⟨h1, h2, h3⟩ := hb
    simp [execStep, h1, h2, h3]
  · by_cases hs : bar.2 = -1 ∧ 0 < st.position
    · obtain ⟨h1, h2⟩ := hs
      simp [execStep, hb, h1, h2]
    · simp [execStep, hb, hs]

/-- An engine step keeps the position nonnegative, provided the bar's
close is positive and the commission rate exceeds -1. -/
theorem execStep_position_nonneg (commission : ℚ) (st : EngineState) (bar : ℚ × ℤ)
    (hc : -1 < commission) (hclose : 0 < bar.1) (hpos : 0 ≤ st.position) :
    0 ≤ (execStep commission st bar).position := by
  by_cases hb : bar.2 = 1 ∧ st.position = 0 ∧ 0 < st.cash
  · obtain ⟨h1, h2, h3⟩ := hb
    have hq : 0 ≤ st.cash / (bar.1 * (1 + commission)) :=
      le_of_lt (div_pos h3 (mul_pos hclose (by linarith)))
    simpa [execStep, h1, h2, h3] using hq
  · by_cases hs : bar.2 = -1 ∧ 0 < st.position
    · obtain ⟨h1, h2⟩ := hs
      simp [execStep, hb, h1, h2]
    · simpa [execStep, hb, hs] using hpos

/-- Invariant for the snapshot claim: nonnegative position, and every
snapshot taken so far balances (totalValue = cash + position * close)
with a nonnegative recorded position. -/
def SnapInv (st : EngineState) : Prop :=
  0 ≤ st.position ∧
  ∀ s ∈ st.portfolio, s.totalValue = s.cash + s.position * s.close ∧ 0 ≤ s.position

/-- One engine step preserves the snapshot invariant under positive
close and commission above -1. -/
theorem execStep_snapInv (commission : ℚ) (st : EngineState) (bar : ℚ × ℤ)
    (hc : -1 < commission) (hclose : 0 < bar.1) (hst : SnapInv st) :
    SnapInv (execStep commission st bar) := by
  obtain ⟨hpos, hsnaps⟩ := hst
  have hpos' := execStep_position_nonneg commission st bar hc hclose hpos
  refine ⟨hpos', ?_⟩
  intro s hs
  rw [execStep_portfolio_snoc commission st bar] at hs
  rcases List.mem_append.mp hs with h | h
  · exact hsnaps s h
  · rcases List.mem_singleton.mp h with rfl
    exact ⟨rfl, hpos'⟩

/-- Folding engine steps preserves the snapshot invariant and adds one
snapshot per bar. -/
theorem foldl_snapInv (commission : ℚ) (hc : -1 < commission) :
    ∀ (bars : List (ℚ × ℤ)) (st : EngineState), (∀ b ∈ bars, 0 < b.1) →
      SnapInv st →
      SnapInv (bars.foldl (execStep commission) st) ∧
      (bars.foldl (execStep commission) st).portfolio.length =
        st.portfolio.length + bars.length := by
  intro bars
  induction bars with
  | nil => intro st _ hst; exact ⟨hst, by simp⟩
  | cons b bs ih =>
    intro st hposall hst
    have hb := hposall b (List.mem_cons_self b bs)
    have hrest := ih (execStep commission st b)
      (fun x hx => hposall x (List.mem_cons_of_mem b hx))
      (execStep_snapInv commission st b hc hb hst)
    refine ⟨by simpa using hrest.1, ?_⟩
    have hlen : (execStep commission st b).portfolio.length =
        st.portfolio.length + 1 := by
      rw [execStep_portfolio_snoc commission st b]
      simp
    simp only [List.foldl_cons]
    rw [hrest.2, hlen]
    simp [List.length_cons]
    omega

/-- C3 (amended): in every run whose closes are strictly positive and
whose commission rate exceeds -1, exactly one snapshot is appended per
input bar, every snapshot satisfies totalValue = cash + position * close
with the bar's close, and the position is nonnegative throughout.  The
positivity hypotheses are necessary: with a negative close (or a
commission rate below -1) the engine buys a negative share quantity. -/
theorem snapshots_per_bar (commission initialCapital : ℚ) (bars : List (ℚ × ℤ))
    (hc : -1 < commission) (hpos : ∀ b ∈ bars, 0 < b.1) :
    (execBacktest commission initialCapital bars).portfolio.length = bars.length ∧
    ∀ s ∈ (execBacktest commission initialCapital bars).portfolio,
      s.totalValue = s.cash + s.position * s.close ∧ 0 ≤ s.position := by
  have h := foldl_snapInv commission hc bars
    { cash := initialCapital, position := 0, trades := [], portfolio := [] }
    hpos ⟨le_refl 0, fun s hs => absurd hs (by simp)⟩
  exact ⟨by simpa using h.2, h.1.2⟩

/-- Witness for C3's amended theorem: a one-bar run at close 10. -/
theorem snapshots_per_bar_witness :
    (execBacktest (3/10000) 100000 [(10, 1)]).portfolio.length = 1 ∧
    ∀ s ∈ (execBacktest (3/10000) 100000 [(10, 1)]).portfolio,
      s.totalValue = s.cash + s.position * s.close ∧ 0 ≤ s.position := by
  have h := snapshots_per_bar (3/10000) 100000 [(10, 1)] (by norm_num) ?_
  · simpa using h
  · intro b hb
    simp only [List.mem_singleton] at hb
    subst hb
    norm_num

/-- Counterexample to C3 as stated: on a bar with a negative close the
engine executes a buy with a negative share quantity, so a completed run
contains a snapshot whose position is strictly negative. -/
theorem snapshots_negative_position :
    ∃ s ∈ (execBacktest (3/10000) 100000 [((-1 : ℚ), (1 : ℤ))]).portfolio,
      s.position < 0 := by
  simp only [execBacktest, List.foldl_cons, List.foldl_nil]
  norm_num [execStep]

/-- The arithmetic mean of the per-strategy votes for one bar: the
signals DataFrame row mean in BacktestEngine.run (engine.py line 71). -/
def signalsMean (votes : List ℚ) : ℚ :=
  votes.sum / votes.length

/-- The ensemble threshold map applied to the row mean (engine.py line
72): 1 if the mean exceeds 0.5, -1 if it is below -0.5, else 0. -/
def combineSignal (votes : List ℚ) : ℤ :=
  if signalsMean votes > 1/2 then 1
  else if signalsMean votes < -(1/2) then -1
  else 0

/-- Result bundle of BacktestEngine.run: the ensemble signal series and
the final execution state (trade log and portfolio snapshots). -/
structure RunResult where
  signals : List ℤ
  final : EngineState

/-- BacktestEngine.run (engine.py lines 47-89): an empty strategy list
is rejected (ValueError, embedded as none) before any signal generation
or bar processing; otherwise the per-bar ensemble signal is the
thresholded mean of the per-strategy votes and the execution loop is
folded over the bars. -/
def engineRun (strategies : List (List ℚ → List ℤ)) (closes : List ℚ)
    (initialCapital commission : ℚ) : Option RunResult :=
  if strategies.isEmpty then none
  else
    let combined := (List.range closes.length).map (fun i =>
      combineSignal (strategies.map (fun strat => (((strat closes).getD i 0 : ℤ) : ℚ))))
    some { signals := combined,
           final := execBacktest commission initialCapital (closes.zip combined) }

/-- C5: the ensemble signal is Buy exactly when the mean vote exceeds
0.5, Sell exactly when it is below -0.5, Hold otherwise; with exactly
one strategy whose vote lies in {-1, 0, 1} the ensemble is a
passthrough of that vote. -/
theorem ensemble_threshold (votes : List ℚ) :
    (combineSignal votes = 1 ↔ signalsMean votes > 1/2) ∧
    (combineSignal votes = -1 ↔ signalsMean votes < -(1/2)) ∧
    (combineSignal votes = 0 ↔
      ¬(signalsMean votes > 1/2) ∧ ¬(signalsMean votes < -(1/2))) ∧
    (∀ v : ℤ, v = -1 ∨ v = 0 ∨ v = 1 → combineSignal [(v : ℚ)] = v) := by
  refine ⟨?_, ?_, ?_, ?_⟩
  · unfold combineSignal
    split_ifs with h1 h2 <;> simp_all
  · unfold combineSignal
    split_ifs with h1 h2
    · constructor
      · intro h
        exact absurd h (by decide)
      · intro h
        exfalso
        linarith
    · simpa using h2
    · simpa using h2
  · unfold combineSignal
    split_ifs with h1 h2 <;> simp_all
  · intro v hv
    rcases hv with rfl | rfl | rfl <;>
      norm_num [combineSignal, signalsMean]

/-- Witness for C5's passthrough conjunct at the three vote values. -/
theorem ensemble_threshold_witness :
    combineSignal [((-1 : ℤ) : ℚ)] = -1 ∧ combineSignal [((0 : ℤ) : ℚ)] = 0 ∧
      combineSignal [((1 : ℤ) : ℚ)] = 1 :=
  ⟨(ensemble_threshold []).2.2.2 (-1) (Or.inl rfl),
   (ensemble_threshold []).2.2.2 0 (Or.inr (Or.inl rfl)),
   (ensemble_threshold []).2.2.2 1 (Or.inr (Or.inr rfl))⟩

/-- C8: running with zero registered strategies is rejected up front:
no signal is generated, no bar is processed and no partial result is
produced (the run yields the error value none). -/
theorem run_rejects_no_strategies (closes : List ℚ) (initialCapital commission : ℚ) :
    engineRun [] closes initialCapital commission = none := by
  simp [engineRun]

/-- Simple moving average (indicators.py SMA, pandas rolling mean):
defined at index i exactly when a full trailing window of length w fits
in the series (1 ≤ w and w ≤ i + 1); the leading positions are NaN,
embedded as none. -/
def smaAt (closes : List ℚ) (w : ℕ) (i : ℕ) : Option ℚ :=
  if 1 ≤ w ∧ w ≤ i + 1 ∧ i < closes.length then
    some (((closes.drop (i + 1 - w)).take w).sum / w)
  else none

/-- The shifted moving average compared against at bar i
(short_ma.shift(1) in ma_cross.py): the previous bar's SMA, NaN (none)
at bar 0. -/
def prevSmaAt (closes : List ℚ) (w : ℕ) (i : ℕ) : Option ℚ :=
  if i = 0 then none else smaAt closes w (i - 1)

/-- Pandas strict greater-than on possibly-NaN values: any comparison
against NaN is False. -/
def optGt (a b : Option ℚ) : Bool :=
  match a, b with
  | some x, some y => decide (x > y)
  | _, _ => false

/-- Pandas strict less-than on possibly-NaN values. -/
def optLt (a b : Option ℚ) : Bool :=
  match a, b with
  | some x, some y => decide (x < y)
  | _, _ => false

/-- Pandas less-or-equal on possibly-NaN values. -/
def optLe (a b : Option ℚ) : Bool :=
  match a, b with
  | some x, some y => decide (x ≤ y)
  | _, _ => false

/-- Pandas greater-or-equal on possibly-NaN values. -/
def optGe (a b : Option ℚ) : Bool :=
  match a, b with
  | some x, some y => decide (x ≥ y)
  | _, _ => false

/-- Per-bar signal of MACrossStrategy.generate_signals (ma_cross.py
lines 49-62): 1 on a golden cross, -1 on a death cross, 0 otherwise,
with NaN comparisons resolving to False exactly as pandas does.  The
two conditions are mutually exclusive, so the source's two sequential
assignments into a zero series equal this single conditional. -/
def maCrossSigAt (closes : List ℚ) (s l : ℕ) (i : ℕ) : ℤ :=
  if optGt (smaAt closes s i) (smaAt closes l i) ∧
      optLe (prevSmaAt closes s i) (prevSmaAt closes l i) then 1
  else if optLt (smaAt closes s i) (smaAt closes l i) ∧
      optGe (prevSmaAt closes s i) (prevSmaAt closes l i) then -1
  else 0

/-- The whole signal series of MACrossStrategy.generate_signals. -/
def maCrossSignals (closes : List ℚ) (s l : ℕ) : List ℤ :=
  (List.range closes.length).map (maCrossSigAt closes s l)

/-- A true pandas comparison has no NaN on either side. -/
theorem optGt_some (a b : Option ℚ) (h : optGt a b = true) :
    a ≠ none ∧ b ≠ none := by
  cases a <;> cases b <;> simp [optGt] at h ⊢

/-- A true pandas less-than has no NaN on either side. -/
theorem optLt_some (a b : Option ℚ) (h : optLt a b = true) :
    a ≠ none ∧ b ≠ none := by
  cases a <;> cases b <;> simp [optLt] at h ⊢

/-- A true pandas less-or-equal has no NaN on either side. -/
theorem optLe_some (a b : Option ℚ) (h : optLe a b = true) :
    a ≠ none ∧ b ≠ none := by
  cases a <;> cases b <;> simp [optLe] at h ⊢

/-- A true pandas greater-or-equal has no NaN on either side. -/
theorem optGe_some (a b : Option ℚ) (h : optGe a b = true) :
    a ≠ none ∧ b ≠ none := by
  cases a <;> cases b <;> simp [optGe] at h ⊢

/-- The golden-cross and death-cross comparisons cannot both hold. -/
theorem optGt_optLt_exclusive (a b : Option ℚ) (h1 : optGt a b = true)
    (h2 : optLt a b = true) : False := by
  cases a <;> cases b <;> simp [optGt, optLt] at h1 h2
  linarith

/-- C4: the moving-average cross strategy emits Buy at bar i iff the
short SMA is above the long SMA and was not above it on the previous
bar, Sell iff it is below and was not below, and Hold otherwise; any
bar at which one of the four compared SMA values is still undefined
(NaN warm-up) emits Hold. -/
theorem ma_cross_signal_iff (closes : List ℚ) (s l : ℕ) (hs : 1 ≤ s) (hl : 1 ≤ l)
    (i : ℕ) (hi : i < (maCrossSignals closes s l).length) :
    ((maCrossSignals closes s l).get ⟨i, hi⟩ = 1 ↔
      optGt (smaAt closes s i) (smaAt closes l i) = true ∧
      optLe (prevSmaAt closes s i) (prevSmaAt closes l i) = true) ∧
    ((maCrossSignals closes s l).get ⟨i, hi⟩ = -1 ↔
      optLt (smaAt closes s i) (smaAt closes l i) = true ∧
      optGe (prevSmaAt closes s i) (prevSmaAt closes l i) = true) ∧
    ((smaAt closes s i = none ∨ smaAt closes l i = none ∨
      prevSmaAt closes s i = none ∨ prevSmaAt closes l i = none) →
      (maCrossSignals closes s l).get ⟨i, hi⟩ = 0) := by
  have hmap : (maCrossSignals closes s l).get ⟨i, hi⟩ = maCrossSigAt closes s l i := by
    simp [maCrossSignals]
  rw [hmap]
  refine ⟨?_, ?_, ?_⟩
  · unfold maCrossSigAt
    split_ifs with h1 h2
    · simp [h1]
    · simpa using h1
    · simpa using h1
  · unfold maCrossSigAt
    split_ifs with h1 h2
    · constructor
      · intro h
        exact absurd h (by decide)
      · intro h
        exact (optGt_optLt_exclusive _ _ h1.1 h.1).elim
    · simpa using h2
    · simpa using h2
  · intro hnone
    unfold maCrossSigAt
    have hc1 : ¬(optGt (smaAt closes s i) (smaAt closes l i) = true ∧
        optLe (prevSmaAt closes s i) (prevSmaAt closes l i) = true) := by
      rintro ⟨hgt, hle⟩
      rcases hnone with h | h | h | h
      · exact (optGt_some _ _ hgt).1 h
      · exact (optGt_some _ _ hgt).2 h
      · exact (optLe_some _ _ hle).1 h
      · exact (optLe_some _ _ hle).2 h
    have hc2 : ¬(optLt (smaAt closes s i) (smaAt closes l i) = true ∧
        optGe (prevSmaAt closes s i) (prevSmaAt closes l i) = true) := by
      rintro ⟨hlt, hge⟩
      rcases hnone with h | h | h | h
      · exact (optLt_some _ _ hlt).1 h
      · exact (optLt_some _ _ hlt).2 h
      · exact (optGe_some _ _ hge).1 h
      · exact (optGe_some _ _ hge).2 h
    simp [hc1, hc2]

/-- Witness for C4: on closes [1, 1, 1, 5] the pair (short 1, long 2)
emits Buy at bar 3 (a golden cross), and the pair (short 2, long 4)
emits Hold at bar 2 because the long SMA of the previous bar is still
undefined. -/
theorem ma_cross_signal_iff_witness :
    (maCrossSignals [1, 1, 1, 5] 1 2).getD 3 0 = 1 ∧
    (maCrossSignals [1, 1, 1, 5] 2 4).getD 2 0 = 0 := by
  constructor
  · have hi : 3 < (maCrossSignals [1, 1, 1, 5] 1 2).length := by
      norm_num [maCrossSignals]
    have h := (ma_cross_signal_iff [1, 1, 1, 5] 1 2 (by norm_num) (by norm_num)
      3 hi).1.mpr ⟨by norm_num [smaAt, optGt], by norm_num [smaAt, prevSmaAt, optLe]⟩
    rw [List.getD_eq_getElem _ _ hi]
    simpa [List.get_eq_getElem] using h
  · have hi : 2 < (maCrossSignals [1, 1, 1, 5] 2 4).length := by
      norm_num [maCrossSignals]
    have h := (ma_cross_signal_iff [1, 1, 1, 5] 2 4 (by norm_num) (by norm_num)
      2 hi).2.2 (by right; right; right; norm_num [smaAt, prevSmaAt])
    rw [List.getD_eq_getElem _ _ hi]
    simpa [List.get_eq_getElem] using h

/-- Per-index gain of RSI (indicators.py line 74): the positive part of
the one-step delta.  At index 0 the delta is NaN, and pandas
where(delta > 0, 0) replaces it with 0 because NaN > 0 is False. -/
def rsiGain (closes : List ℚ) (i : ℕ) : ℚ :=
  if i = 0 then 0 else max (closes.getD i 0 - closes.getD (i - 1) 0) 0

/-- Per-index loss of RSI (indicators.py line 75): the positive part of
the negated one-step delta, 0 at index 0 for the same NaN reason. -/
def rsiLoss (closes : List ℚ) (i : ℕ) : ℚ :=
  if i = 0 then 0 else max (closes.getD (i - 1) 0 - closes.getD i 0) 0

/-- Trailing-window mean of the gains at index i (rolling(window).mean()
applied to the gain series). -/
def rsiGainMean (closes : List ℚ) (w i : ℕ) : ℚ :=
  ((List.range w).map (fun j => rsiGain closes (i + 1 - w + j))).sum / w

/-- Trailing-window mean of the losses at index i. -/
def rsiLossMean (closes : List ℚ) (w i : ℕ) : ℚ :=
  ((List.range w).map (fun j => rsiLoss closes (i + 1 - w + j))).sum / w

/-- RSI at index i (indicators.py lines 73-80) under float semantics:
warm-up positions (window not full) are NaN; a zero loss mean with a
positive gain mean gives rs = inf and hence 100 - 100/(1+inf) = 100; a
zero loss mean with a zero gain mean gives rs = 0/0 = NaN, which
propagates; otherwise the value is 100 - 100/(1 + gainMean/lossMean).
NaN is embedded as none. -/
def rsiAt (closes : List ℚ) (w i : ℕ) : Option ℚ :=
  if 1 ≤ w ∧ w ≤ i + 1 ∧ i < closes.length then
    if rsiLossMean closes w i = 0 then
      if rsiGainMean closes w i = 0 then none else some 100
    else some (100 - 100 / (1 + rsiGainMean closes w i / rsiLossMean closes w i))
  else none

/-- Counterexample to C9 as stated: on the flat series [1, 1] with
window 1, the index-1 loss mean is 0 but RSI is NaN (0/0), not the
sentinel 100. -/
theorem rsi_flat_window_nan :
    rsiLossMean [1, 1] 1 1 = 0 ∧ rsiAt [1, 1] 1 1 ≠ some 100 := by
  constructor
  · norm_num [rsiLossMean, rsiLoss, List.range_succ]
  · have h : rsiAt [1, 1] 1 1 = none := by
      norm_num [rsiAt, rsiLossMean, rsiGainMean, rsiLoss, rsiGain, List.range_succ]
    rw [h]
    exact fun hc => Option.noConfusion hc

/-- C9 (amended): RSI never faults; on a full window it equals 100 when
the loss mean is 0 and the gain mean is positive, is NaN (undefined)
when both window means are 0 (flat window), and equals
100 - 100/(1 + gainMean/lossMean) when the loss mean is nonzero. -/
theorem rsi_characterization (closes : List ℚ) (w i : ℕ) (hw : 1 ≤ w)
    (hwin : w ≤ i + 1) (hi : i < closes.length) :
    (rsiLossMean closes w i = 0 → rsiGainMean closes w i ≠ 0 →
      rsiAt closes w i = some 100) ∧
    (rsiLossMean closes w i = 0 → rsiGainMean closes w i = 0 →
      rsiAt closes w i = none) ∧
    (rsiLossMean closes w i ≠ 0 → rsiAt closes w i =
      some (100 - 100 / (1 + rsiGainMean closes w i / rsiLossMean closes w i))) := by
  refine ⟨fun hl hg => ?_, fun hl hg => ?_, fun hl => ?_⟩
  · simp [rsiAt, hw, hwin, hi, hl, hg]
  · simp [rsiAt, hw, hwin, hi, hl, hg]
  · simp [rsiAt, hw, hwin, hi, hl]

/-- Witness for C9's amended theorem: rising series [1, 2] with window
1 gives the 100 sentinel at index 1; falling series [2, 1] gives the
generic formula (value 0). -/
theorem rsi_characterization_witness :
    rsiAt [1, 2] 1 1 = some 100 ∧
    rsiAt [2, 1] 1 1 =
      some (100 - 100 / (1 + rsiGainMean [2, 1] 1 1 / rsiLossMean [2, 1] 1 1)) := by
  constructor
  · exact (rsi_characterization [1, 2] 1 1 (by norm_num) (by norm_num)
      (by norm_num)).1 (by norm_num [rsiLossMean, rsiLoss, List.range_succ])
      (by norm_num [rsiGainMean, rsiGain, List.range_succ])
  · exact (rsi_characterization [2, 1] 1 1 (by norm_num) (by norm_num)
      (by norm_num)).2.2 (by norm_num [rsiLossMean, rsiLoss, List.range_succ])

/-- The Buy side of the trade log (engine.py line 211). -/
def buyTrades (trades : List Trade) : List Trade :=
  trades.filter (fun t => t.side = TradeType.buy)

/-- The Sell side of the trade log (engine.py line 212). -/
def sellTrades (trades : List Trade) : List Trade :=
  trades.filter (fun t => t.side = TradeType.sell)

/-- Profit of one buy/sell pair (engine.py lines 217-220): sell revenue
minus buy cost minus both commissions. -/
def pairProfit (b s : Trade) : ℚ :=
  s.price * s.shares - b.price * b.shares - (b.commission + s.commission)

/-- The profit list (engine.py lines 215-221): the i-th buy is paired
with the i-th sell, for i below the smaller of the two counts. -/
def tradeProfits (trades : List Trade) : List ℚ :=
  ((buyTrades trades).zip (sellTrades trades)).map (fun p => pairProfit p.1 p.2)

/-- The winning pairs: strictly positive profits (engine.py line 223). -/
def winTrades (trades : List Trade) : List ℚ :=
  (tradeProfits trades).filter (fun p => 0 < p)

/-- The losing pairs: strictly negative profits (engine.py line 224). -/
def loseTrades (trades : List Trade) : List ℚ :=
  (tradeProfits trades).filter (fun p => p < 0)

/-- Win rate (engine.py line 226): winning pairs over all pairs, as a
percentage, 0 when there are no pairs. -/
def winRate (trades : List Trade) : ℚ :=
  if tradeProfits trades = [] then 0
  else (winTrades trades).length / (tradeProfits trades).length * 100

/-- A dummy trade used only as a getD default in statements. -/
def dummyTrade : Trade :=
  { side := .buy, price := 0, shares := 0, commission := 0, cash := 0 }

/-- Filtering a rational list by the three sign classes partitions it. -/
theorem length_filter_sign_partition (l : List ℚ) :
    (l.filter (fun p => 0 < p)).length + (l.filter (fun p => p < 0)).length +
      (l.filter (fun p => p = 0)).length = l.length := by
  induction l with
  | nil => simp
  | cons x xs ih =>
    by_cases h1 : 0 < x
    · have h2 : ¬(x < 0) := by linarith
      have h3 : ¬(x = 0) := by
        intro h
        rw [h] at h1
        exact lt_irrefl 0 h1
      simp only [List.filter_cons, decide_eq_true_eq]
      simp only [if_pos h1, if_neg h2, if_neg h3, List.length_cons]
      omega
    · by_cases h2 : x < 0
      · have h3 : ¬(x = 0) := by
          intro h
          rw [h] at h2
          exact lt_irrefl 0 h2
        simp only [List.filter_cons, decide_eq_true_eq]
        simp only [if_neg h1, if_pos h2, if_neg h3, List.length_cons]
        omega
      · have h3 : x = 0 := le_antisymm (not_lt.mp h1) (not_lt.mp h2)
        simp only [List.filter_cons, decide_eq_true_eq]
        simp only [if_neg h1, if_neg h2, if_pos h3, List.length_cons]
        omega

/-- C10: trade pairing statistics pair the i-th Buy with the i-th Sell
over exactly min(number of Buys, number of Sells) pairs; a final Buy
with no matching Sell contributes no profit entry; a pair with profit
exactly 0 is counted in the win-rate denominator but belongs to neither
the winning nor the losing set. -/
theorem trade_pairing (trades : List Trade) :
    (tradeProfits trades).length =
      min (buyTrades trades).length (sellTrades trades).length ∧
    (∀ i, i < (buyTrades trades).length → i < (sellTrades trades).length →
      (tradeProfits trades).getD i 0 =
        pairProfit ((buyTrades trades).getD i dummyTrade)
          ((sellTrades trades).getD i dummyTrade)) ∧
    ((sellTrades trades).length < (buyTrades trades).length →
      (tradeProfits trades).length = (sellTrades trades).length) ∧
    (winTrades trades).length + (loseTrades trades).length +
      ((tradeProfits trades).filter (fun p => p = 0)).length =
      (tradeProfits trades).length ∧
    (tradeProfits trades ≠ [] → winRate trades =
      (winTrades trades).length / (tradeProfits trades).length * 100) ∧
    (∀ p ∈ tradeProfits trades, p = 0 →
      p ∉ winTrades trades ∧ p ∉ loseTrades trades) := by
  refine ⟨?_, ?_, ?_, ?_, ?_, ?_⟩
  · simp [tradeProfits, List.length_zip]
  · intro i h1 h2
    have hz : i < ((buyTrades trades).zip (sellTrades trades)).length := by
      simp [List.length_zip]
      omega
    have hp : i < (tradeProfits trades).length := by
      simpa [tradeProfits] using hz
    rw [List.getD_eq_getElem _ _ hp, List.getD_eq_getElem _ _ h1,
      List.getD_eq_getElem _ _ h2]
    simp [tradeProfits, List.getElem_zip]
  · intro h
    simp [tradeProfits, List.length_zip]
    omega
  · exact length_filter_sign_partition (tradeProfits trades)
  · intro h
    simp [winRate, h]
  · intro p hp hp0
    subst hp0
    constructor
    · intro hmem
      have := (List.mem_filter.mp hmem).2
      simp at this
    · intro hmem
      have := (List.mem_filter.mp hmem).2
      simp at this

/-- Witness for C10: two Buys and one Sell; the single pair has profit
2 and the final open Buy is excluded. -/
theorem trade_pairing_witness :
    (tradeProfits
      [{ side := .buy, price := 10, shares := 1, commission := 0, cash := 0 },
       { side := .sell, price := 12, shares := 1, commission := 0, cash := 0 },
       { side := .buy, price := 5, shares := 1, commission := 0, cash := 0 }]).length = 1 ∧
    (tradeProfits
      [{ side := .buy, price := 10, shares := 1, commission := 0, cash := 0 },
       { side := .sell, price := 12, shares := 1, commission := 0, cash := 0 },
       { side := .buy, price := 5, shares := 1, commission := 0, cash := 0 }]).getD 0 0 =
      pairProfit ((buyTrades
      [{ side := .buy, price := 10, shares := 1, commission := 0, cash := 0 },
       { side := .sell, price := 12, shares := 1, commission := 0, cash := 0 },
       { side := .buy, price := 5, shares := 1, commission := 0, cash := 0 }]).getD 0 dummyTrade)
        ((sellTrades
      [{ side := .buy, price := 10, shares := 1, commission := 0, cash := 0 },
       { side := .sell, price := 12, shares := 1, commission := 0, cash := 0 },
       { side := .buy, price := 5, shares := 1, commission := 0, cash := 0 }]).getD 0 dummyTrade) := by
  constructor
  · have h := (trade_pairing
      [{ side := .buy, price := 10, shares := 1, commission := 0, cash := 0 },
       { side := .sell, price := 12, shares := 1, commission := 0, cash := 0 },
       { side := .buy, price := 5, shares := 1, commission := 0, cash := 0 }]).1
    rw [h]
    simp [buyTrades, sellTrades, List.filter_cons]
  · exact (trade_pairing _).2.1 0
      (by simp [buyTrades, List.filter_cons])
      (by simp [sellTrades, List.filter_cons])

/-- Mean of a real series (pandas Series.mean of the return series,
used inside the Sharpe computation where the series is nonempty). -/
noncomputable def listMean (xs : List ℝ) : ℝ :=
  xs.sum / xs.length

/-- Pandas sample standard deviation (Series.std, ddof = 1): NaN (none)
for fewer than two observations, otherwise the square root of the sum
of squared deviations divided by n - 1. -/
noncomputable def sampleStd (xs : List ℝ) : Option ℝ :=
  if 2 ≤ xs.length then
    some (Real.sqrt ((xs.map (fun x => (x - listMean xs) ^ 2)).sum / (xs.length - 1)))
  else none

/-- The percentage-change return series of the portfolio total values
(pct_change().dropna(), engine.py line 204): one return per consecutive
pair of snapshots. -/
noncomputable def pctChanges (values : List ℝ) : List ℝ :=
  (values.zip values.tail).map (fun p => p.2 / p.1 - 1)

/-- Sharpe ratio (engine.py lines 203-208).  The source guard is
len(returns) > 0 and returns.std() != 0; with exactly one observation
the std is NaN and NaN != 0 is True in Python, so the guard passes and
the quotient is NaN.  NaN is embedded as none and propagates through
the map. -/
noncomputable def sharpeRatio (returns : List ℝ) : Option ℝ :=
  if 0 < returns.length ∧ sampleStd returns ≠ some 0 then
    (sampleStd returns).map (fun s =>
      (listMean returns * 252 - 0.03) / (s * Real.sqrt 252))
  else some 0

/-- Counterexample to C6 as stated: a two-snapshot run has exactly one
return observation (fewer than 2), and its Sharpe ratio is NaN
(undefined), not the claimed fallback 0. -/
theorem sharpe_single_return_nan :
    sharpeRatio (pctChanges [(100000 : ℝ), 100100]) = none ∧
    sharpeRatio (pctChanges [(100000 : ℝ), 100100]) ≠ some 0 := by
  have h : sharpeRatio (pctChanges [(100000 : ℝ), 100100]) = none := by
    simp [sharpeRatio, sampleStd, pctChanges]
  exact ⟨h, by rw [h]; exact fun hc => Option.noConfusion hc⟩

/-- C6 (amended): with at least 2 return observations and nonzero
standard deviation the Sharpe ratio equals
(mean * 252 - 0.03) / (std * sqrt 252); with zero observations or a
zero standard deviation it is the fallback 0; with exactly one
observation the standard deviation is NaN, the guard NaN != 0 passes,
and the Sharpe ratio is NaN (undefined) rather than 0.  No case
raises a fault. -/
theorem sharpe_ratio_cases (returns : List ℝ) :
    (2 ≤ returns.length → sampleStd returns ≠ some 0 →
      ∃ s, sampleStd returns = some s ∧
        sharpeRatio returns =
          some ((listMean returns * 252 - 0.03) / (s * Real.sqrt 252))) ∧
    (returns.length = 0 ∨ sampleStd returns = some 0 →
      sharpeRatio returns = some 0) ∧
    (returns.length = 1 → sharpeRatio returns = none) := by
  refine ⟨?_, ?_, ?_⟩
  · intro h2 hs0
    refine ⟨Real.sqrt ((returns.map (fun x => (x - listMean returns) ^ 2)).sum /
      (returns.length - 1)), ?_, ?_⟩
    · simp [sampleStd, h2]
    · unfold sharpeRatio
      rw [if_pos ⟨by omega, hs0⟩]
      simp [sampleStd, h2]
  · intro h
    rcases h with h | h
    · have hneg : ¬(0 < returns.length ∧ sampleStd returns ≠ some 0) := by
        intro hc
        rw [h] at hc
        exact lt_irrefl 0 hc.1
      unfold sharpeRatio
      rw [if_neg hneg]
    · have hneg : ¬(0 < returns.length ∧ sampleStd returns ≠ some 0) :=
        fun hc => hc.2 h
      unfold sharpeRatio
      rw [if_neg hneg]
  · intro h1
    have hs : sampleStd returns = none := by
      unfold sampleStd
      rw [if_neg (by omega)]
    unfold sharpeRatio
    rw [if_pos ⟨by omega, by rw [hs]; exact fun hc => Option.noConfusion hc⟩, hs]
    rfl

/-- Witness for C6's amended theorem: the empty return series gives 0,
a singleton gives NaN, and the two-observation series [0, 2] (mean 1,
sample std sqrt 2) gives the formula value. -/
theorem sharpe_ratio_cases_witness :
    sharpeRatio [] = some 0 ∧
    sharpeRatio [(2 : ℝ)] = none ∧
    sharpeRatio [(0 : ℝ), 2] =
      some ((listMean [(0 : ℝ), 2] * 252 - 0.03) / (Real.sqrt 2 * Real.sqrt 252)) := by
  refine ⟨(sharpe_ratio_cases []).2.1 (Or.inl rfl),
    (sharpe_ratio_cases [(2 : ℝ)]).2.2 rfl, ?_⟩
  have hstd : sampleStd [(0 : ℝ), 2] = some (Real.sqrt 2) := by
    norm_num [sampleStd, listMean]
  have hne : sampleStd [(0 : ℝ), 2] ≠ some 0 := by
    rw [hstd]
    intro hc
    have h0 := Option.some.inj hc
    have h2 : (0 : ℝ) < Real.sqrt 2 := Real.sqrt_pos.mpr (by norm_num)
    linarith
  obtain ⟨s, hs, hval⟩ := (sharpe_ratio_cases [(0 : ℝ), 2]).1 (by norm_num) hne
  rw [hstd] at hs
  rw [hval, (Option.some.inj hs).symm]

/-- Total return metric (engine.py line 191): the last snapshot's total
value against the initial capital.  On a zero-bar run the iloc[-1]
lookup raises IndexError (and building the empty portfolio frame
already raises KeyError); the fault is embedded as none. -/
noncomputable def totalReturnMetric (values : List ℝ) (initialCapital : ℝ) : Option ℝ :=
  values.getLast?.map (fun v => (v / initialCapital - 1) * 100)

/-- Annualized return metric (engine.py lines 194-195): computed from
the total return with the days > 0 guard; the guard's else-0 branch is
reachable only when the total return has already faulted, so the fault
propagates. -/
noncomputable def annualReturnMetric (values : List ℝ) (initialCapital : ℝ) : Option ℝ :=
  (totalReturnMetric values initialCapital).map (fun tr =>
    if 0 < values.length then
      ((1 + tr / 100) ^ ((252 : ℝ) / values.length) - 1) * 100
    else 0)

/-- C7: on a zero-bar run the metric computation faults (the total
return indexes an empty snapshot series) before the days = 0 fallback
of the annualized return can be evaluated, so the annualized return is
not the claimed defined 0; on a one-bar flat run the normal formula
path yields 0. -/
theorem annual_return_zero_bar_faults :
    annualReturnMetric [] 100000 = none ∧
    totalReturnMetric [] 100000 = none ∧
    annualReturnMetric [(100000 : ℝ)] 100000 = some 0 := by
  refine ⟨by simp [annualReturnMetric, totalReturnMetric],
    by simp [totalReturnMetric], ?_⟩
  norm_num [annualReturnMetric, totalReturnMetric, Real.one_rpow]

end QuantBacktest
